import Mathlib

/-!
# Assembly facade of the CLI metadata loader (`net/assembly.go`)

A shallow embedding of `Assembly.Name`, `Assembly.Types`, `Assembly.FindType`,
`Assembly.Complete` and `LoadAssembly`.

The source file calls into the rest of package `net` and into packages
`content` and `util`, none of which it defines.  Every such callee is a field
of `Collaborators` (row decoding, conversions, the validity filter) or of
`Loader` (the binary cursor and the header readers); the functions of
`assembly.go` itself are transcribed statement by statement on top of them.

Conventions.
* A Go result `(x, err)` produced by `assembly.go` is a pair of options
  (`none` is `nil`); a callee whose value is only used when `err == nil` is an
  `Except`.
* `uint32` values are naturals below `2 ^ 32`; additions on them are reduced
  modulo `2 ^ 32`.
* `map[string]*TypeDef` is an association list with at most one entry per key.
-/

namespace Net

/-! ## Data model -/

/-- Go `error` values, identified by their message. -/
structure GoError where
  msg : String
deriving DecidableEq, Repr

/-- The Go expression `errors.New(msg)`. -/
def errors_New (msg : String) : GoError := ⟨msg⟩

/-- The type `content.FullyQualifiedName`; `assembly.go` reads only its
`Absolute` field. -/
structure FullyQualifiedName where
  Absolute : String
deriving DecidableEq, Repr

/-- The type `content.Type`: the `Name` field read by `assembly.go`, and the
remaining fields kept as one value of type `P`. -/
structure ContentType (P : Type) where
  Name : FullyQualifiedName
  rest : P
deriving DecidableEq, Repr

/-- The type `content.CompletionResult`, which has the same underlying type as
`content.Type`; the Go conversion `content.CompletionResult(ct)` is `mk ct`. -/
structure CompletionResult (P : Type) where
  toType : ContentType P
deriving DecidableEq, Repr

/-- The two table identifiers `assembly.go` uses. -/
inductive TableId where
  | id_Module
  | id_TypeDef
deriving DecidableEq, Repr

/-- A decoded row of the Module table (`*ModuleRow`); only `Name` is read. -/
structure ModuleRow where
  Name : String
deriving DecidableEq, Repr

/-- The dynamic type of the row `ConcreteTableIndex.Data` yields for a table:
`*ModuleRow` for `id_Module`, `*TypeDefRow` for `id_TypeDef`, so that the type
assertions `raw.(*ModuleRow)` and `rawtype.(*TypeDefRow)` are the identity. -/
abbrev RowOf (TypeDefRow : Type) : TableId → Type
  | .id_Module => ModuleRow
  | .id_TypeDef => TypeDefRow

/-- One entry of `MetadataUtil.Tables`; `Rows` is a `uint32`. -/
structure MetadataTable where
  Rows : Fin 4294967296
deriving DecidableEq, Repr

/-- The metadata facade: the `Tables` array read by `assembly.go`, and the rest
of its state (stream offsets, heaps) as one value of type `M`. -/
structure MetadataUtil (M : Type) where
  Tables : TableId → MetadataTable
  rest : M

/-- The struct literal `ConcreteTableIndex{metadata, index, table}`. -/
structure ConcreteTableIndex (M : Type) where
  metadata : MetadataUtil M
  index : Nat
  table : TableId

/-- The functions of packages `net` and `content` that `assembly.go` calls and
does not define.  `TD` is the type `TypeDef` behind the handles `*TypeDef`. -/
structure Collaborators (M TypeDefRow TD P : Type) where
  /-- The method `(*ConcreteTableIndex).Data`, typed by the table of the index. -/
  Data : (ci : ConcreteTableIndex M) → Except GoError (RowOf TypeDefRow ci.table)
  /-- The function `TypeDefFromIndex`, called with `&idx`.  The handle it
  returns is a value: it is taken not to alias `idx`, which the scan loop of
  `FindType` goes on to modify. -/
  TypeDefFromIndex : ConcreteTableIndex M → Except GoError TD
  /-- The method `(*TypeDef).Name`. -/
  TypeDef_Name : TD → FullyQualifiedName
  /-- The method `(*TypeDef).ToContentType`. -/
  TypeDef_ToContentType : TD → Except GoError (ContentType P)
  /-- The function `ToContentType` on a TypeDef row. -/
  ToContentType : TypeDefRow → ContentType P
  /-- The validity filter `check(&tc, tc.Name)`; `none` is a `nil` error.
  It is taken to inspect `tc` without modifying it. -/
  check : ContentType P → FullyQualifiedName → Option GoError
  /-- The text `fmt.Sprintf("%s", t)` prints for a `*content.Type`. -/
  Sprint : ContentType P → String

/-- Go `map[string]*TypeDef` lookup `m[k]`: `none` (nil) when `k` is absent. -/
def TypeLut.get {TD : Type} (m : List (String × TD)) (k : String) : Option TD :=
  match m with
  | [] => none
  | (k1, v) :: rest => if k1 = k then some v else TypeLut.get rest k

/-- Go map assignment `m[k] = v`: any previous entry for `k` is replaced. -/
def TypeLut.set {TD : Type} (m : List (String × TD)) (k : String) (v : TD) :
    List (String × TD) :=
  (k, v) :: m.filter (fun p => !decide (p.1 = k))

/-- The struct `Assembly`: the embedded `MetadataUtil` and the lazily built
name cache `typelut` (`none` is the nil map). -/
structure Assembly (M TD : Type) where
  toMetadataUtil : MetadataUtil M
  typelut : Option (List (String × TD))

/-! ## `Assembly.Name` -/

/-- Source: `func (a *Assembly) Name() string`. -/
def Assembly.Name {M TypeDefRow TD P : Type} (c : Collaborators M TypeDefRow TD P)
    (a : Assembly M TD) : String :=
  let ci : ConcreteTableIndex M := ⟨a.toMetadataUtil, 1, .id_Module⟩
  match c.Data ci with
  | .ok mr => mr.Name
  | .error _ => ""

/-! ## `Assembly.FindType` -/

/-- The values `1 + i` that `idx.index` takes in the loop
`for i := uint32(0); i < Rows; i++`, in order (`uint32` addition). -/
def rowNumbers (rows : Fin 4294967296) : List Nat :=
  (List.range rows.val).map (fun i => (1 + i) % 4294967296)

/-- The body of the scan loop of `FindType`, run for the remaining row numbers:
a row whose `TypeDefFromIndex` succeeds is stored under its absolute name, a
row whose `TypeDefFromIndex` fails is passed over.  The second component
records, in order, the row numbers handed to `TypeDefFromIndex`. -/
def FindType.scan {M TypeDefRow TD P : Type} (c : Collaborators M TypeDefRow TD P)
    (md : MetadataUtil M) : List Nat → List (String × TD) × List Nat →
    List (String × TD) × List Nat
  | [], st => st
  | n :: ns, (lut, decoded) =>
    let idx : ConcreteTableIndex M := ⟨md, n, .id_TypeDef⟩
    match c.TypeDefFromIndex idx with
    | .ok td =>
      FindType.scan c md ns (TypeLut.set lut (c.TypeDef_Name td).Absolute td, decoded ++ [n])
    | .error _ => FindType.scan c md ns (lut, decoded ++ [n])

/-- What one call of `FindType` does: the returned pair `(handle, err)`, the
receiver after the call, and the row numbers decoded during the call. -/
structure FindTypeResult (M TD : Type) where
  handle : Option TD
  err : Option GoError
  assembly : Assembly M TD
  decoded : List Nat

/-- Source: `func (a *Assembly) FindType(t content.FullyQualifiedName) (*TypeDef, error)`. -/
def Assembly.FindType {M TypeDefRow TD P : Type} (c : Collaborators M TypeDefRow TD P)
    (a : Assembly M TD) (t : FullyQualifiedName) : FindTypeResult M TD :=
  if t.Absolute = "" then
    ⟨none, some (errors_New "Can only look up types with a full absolute name"), a, []⟩
  else
    match a.typelut with
    | some lut => ⟨TypeLut.get lut t.Absolute, none, a, []⟩
    | none =>
      let built := FindType.scan c a.toMetadataUtil
        (rowNumbers (a.toMetadataUtil.Tables .id_TypeDef).Rows) ([], [])
      ⟨TypeLut.get built.1 t.Absolute, none, { a with typelut := some built.1 }, built.2⟩

/-! ## `Assembly.Types` -/

/-- The loop of `Types`, run for the remaining row numbers with the entries
appended so far: a row whose `Data` fails ends the call with `(nil, err)`; a
row rejected by `check` is passed over; any other row is appended. -/
def Types.loop {M TypeDefRow TD P : Type} (c : Collaborators M TypeDefRow TD P)
    (md : MetadataUtil M) : List Nat → List (ContentType P) →
    List (ContentType P) × Option GoError
  | [], types => (types, none)
  | n :: ns, types =>
    let idx : ConcreteTableIndex M := ⟨md, n, .id_TypeDef⟩
    match c.Data idx with
    | .error err => ([], some err)
    | .ok tr =>
      let tc := c.ToContentType tr
      match c.check tc tc.Name with
      | some _ => Types.loop c md ns types
      | none => Types.loop c md ns (types ++ [tc])

/-- Source: `func (a *Assembly) Types() (types []content.Type, err error)`.
A nil slice is the empty list. -/
def Assembly.Types {M TypeDefRow TD P : Type} (c : Collaborators M TypeDefRow TD P)
    (a : Assembly M TD) : List (ContentType P) × Option GoError :=
  Types.loop c a.toMetadataUtil (rowNumbers (a.toMetadataUtil.Tables .id_TypeDef).Rows) []

/-! ## `Assembly.Complete` -/

/-- What one call of `Complete` does: the returned pair `(result, err)` and the
receiver after the call. -/
structure CompleteResult (M TD P : Type) where
  result : Option (CompletionResult P)
  err : Option GoError
  assembly : Assembly M TD

/-- The error `Complete` makes when `FindType` finds nothing:
`errors.New(fmt.Sprintf("Type not found in assembly: %s", t))`. -/
def notFound {M TypeDefRow TD P : Type} (c : Collaborators M TypeDefRow TD P)
    (t : ContentType P) : GoError :=
  errors_New ("Type not found in assembly: " ++ c.Sprint t)

/-- Source: `func (a *Assembly) Complete(t *content.Type) (*content.CompletionResult, error)`. -/
def Assembly.Complete {M TypeDefRow TD P : Type} (c : Collaborators M TypeDefRow TD P)
    (a : Assembly M TD) (t : ContentType P) : CompleteResult M TD P :=
  let found := Assembly.FindType c a t.Name
  match found.err with
  | some err => ⟨none, some err, found.assembly⟩
  | none =>
    match found.handle with
    | none => ⟨none, some (notFound c t), found.assembly⟩
    | some td =>
      match c.TypeDef_ToContentType td with
      | .error err => ⟨none, some err, found.assembly⟩
      | .ok ct => ⟨some (CompletionResult.mk ct), none, found.assembly⟩

/-! ## `LoadAssembly` -/

/-- Modelled from the spec: the declaration of a directory entry is not in
`assembly.go`; the spec describes the directory table as virtual-address/size
pairs.  `assembly.go` reads `VirtualAddress` of two such entries. -/
structure DataDirectory where
  VirtualAddress : Nat
  Size : Nat
deriving DecidableEq, Repr

/-- The optional header: the directory table `RVAS`, a fixed-size array of
which `assembly.go` reads slot 14. -/
structure OptionalHeader where
  RVAS : Nat → DataDirectory

/-- The struct `coff_file_header`: its `OptionalHeader`, and the other fields
(file header, section table) as one value of type `S`. -/
structure coff_file_header (S : Type) where
  OptionalHeader : OptionalHeader
  rest : S

/-- The struct `image_cor20`; `assembly.go` reads only `MetaData`. -/
structure image_cor20 where
  MetaData : DataDirectory
deriving DecidableEq, Repr

/-- The callees of `LoadAssembly` that `assembly.go` does not define.  `R` is
the state of the byte source together with its cursor, `H` the struct
`MetadataHeader`. -/
structure Loader (R S H M : Type) where
  /-- The constant `pe_signature_offset`. -/
  pe_signature_offset : Int
  /-- The call `r.Seek(offset, 0)` on the `io.ReadSeeker`. -/
  Seek : R → Int → Except GoError R
  /-- The call `br.Seek(offset, 0)` on the `util.BinaryReader`. -/
  BinaryReader_Seek : R → Int → Except GoError R
  /-- The call `br.Uint32()`. -/
  Uint32 : R → Except GoError (Nat × R)
  /-- The call `br.ReadInterface(&coff)`. -/
  ReadCoff : R → Except GoError (coff_file_header S × R)
  /-- The call `br.ReadInterface(&cor20)`. -/
  ReadCor20 : R → Except GoError (image_cor20 × R)
  /-- The call `br.ReadInterface(&t)` for `t MetadataHeader`. -/
  ReadMetadataHeader : R → Except GoError (H × R)
  /-- The method `coff.VirtualToFileOffset`, which returns one `uint32`. -/
  VirtualToFileOffset : coff_file_header S → Nat → Nat
  /-- The method `t.MetadataUtil(&br)`. -/
  MetadataHeader_MetadataUtil : H → R → Except GoError (MetadataUtil M)

/-- Source: `func LoadAssembly(r io.ReadSeeker) (*Assembly, error)`. -/
def LoadAssembly {R S H M : Type} (TD : Type) (l : Loader R S H M) (r : R) :
    Option (Assembly M TD) × Option GoError :=
  match l.Seek r l.pe_signature_offset with
  | .error err => (none, some err)
  | .ok r1 =>
  match l.Uint32 r1 with
  | .error err => (none, some err)
  | .ok (pe_offset, r2) =>
  match l.Seek r2 (Int.ofNat pe_offset) with
  | .error err => (none, some err)
  | .ok r3 =>
  match l.ReadCoff r3 with
  | .error err => (none, some err)
  | .ok (coff, r4) =>
  let net := coff.OptionalHeader.RVAS 14
  let off := l.VirtualToFileOffset coff net.VirtualAddress
  match l.BinaryReader_Seek r4 (Int.ofNat off) with
  | .error err => (none, some err)
  | .ok r5 =>
  match l.ReadCor20 r5 with
  | .error err => (none, some err)
  | .ok (cor20, r6) =>
  let off2 := l.VirtualToFileOffset coff cor20.MetaData.VirtualAddress
  match l.BinaryReader_Seek r6 (Int.ofNat off2) with
  | .error err => (none, some err)
  | .ok r7 =>
  match l.ReadMetadataHeader r7 with
  | .error err => (none, some err)
  | .ok (t, r8) =>
  match l.BinaryReader_Seek r8 (Int.ofNat off2) with
  | .error err => (none, some err)
  | .ok r9 =>
  match l.MetadataHeader_MetadataUtil t r9 with
  | .error err => (none, some err)
  | .ok md => (some ⟨md, none⟩, none)

/-! ## Derived notions used in the statements -/

/-- The cache `FindType` builds on its first call with a non-empty name. -/
def builtCache {M TypeDefRow TD P : Type} (c : Collaborators M TypeDefRow TD P)
    (md : MetadataUtil M) : List (String × TD) :=
  (FindType.scan c md (rowNumbers (md.Tables .id_TypeDef).Rows) ([], [])).1

/-- The states an `Assembly` can be in: `LoadAssembly` creates it with a nil
cache, and the only assignment to `typelut` is the one in `FindType`. -/
def Assembly.WellFormed {M TypeDefRow TD P : Type} (c : Collaborators M TypeDefRow TD P)
    (a : Assembly M TD) : Prop :=
  a.typelut = none ∨ a.typelut = some (builtCache c a.toMetadataUtil)

/-- The receiver after a sequence of `FindType` calls, one per name. -/
def Assembly.afterFindTypes {M TypeDefRow TD P : Type} (c : Collaborators M TypeDefRow TD P)
    (a : Assembly M TD) : List FullyQualifiedName → Assembly M TD
  | [] => a
  | t :: ts => Assembly.afterFindTypes c (Assembly.FindType c a t).assembly ts

/-- What row number `n` contributes to the result of `Types` when it decodes:
its conversion if `check` accepts it, nothing otherwise. -/
def Types.keep {M TypeDefRow TD P : Type} (c : Collaborators M TypeDefRow TD P)
    (md : MetadataUtil M) (n : Nat) : Option (ContentType P) :=
  match c.Data ⟨md, n, .id_TypeDef⟩ with
  | .error _ => none
  | .ok tr =>
    match c.check (c.ToContentType tr) (c.ToContentType tr).Name with
    | some _ => none
    | none => some (c.ToContentType tr)

/-- The coff header with the `Size` of directory slot 14 replaced by `s`. -/
def coff_file_header.withCliSize {S : Type} (coff : coff_file_header S) (s : Nat) :
    coff_file_header S :=
  { coff with OptionalHeader :=
      ⟨fun k => if k = 14 then ⟨(coff.OptionalHeader.RVAS 14).VirtualAddress, s⟩
        else coff.OptionalHeader.RVAS k⟩ }

/-- The loader whose `ReadCoff` reports size `s` for directory slot 14 and is
otherwise the one of `l`. -/
def Loader.withCliSize {R S H M : Type} (l : Loader R S H M) (s : Nat) : Loader R S H M :=
  { l with ReadCoff := fun r =>
      match l.ReadCoff r with
      | .ok (coff, r1) => .ok (coff.withCliSize s, r1)
      | .error err => .error err }

/-- The directory entry in slot 14 of the header `LoadAssembly` reads from `r`,
when its first four steps succeed. -/
def Loader.cliDirectory {R S H M : Type} (l : Loader R S H M) (r : R) : Option DataDirectory :=
  match l.Seek r l.pe_signature_offset with
  | .error _ => none
  | .ok r1 =>
  match l.Uint32 r1 with
  | .error _ => none
  | .ok (pe_offset, r2) =>
  match l.Seek r2 (Int.ofNat pe_offset) with
  | .error _ => none
  | .ok r3 =>
  match l.ReadCoff r3 with
  | .error _ => none
  | .ok (coff, _) => some (coff.OptionalHeader.RVAS 14)

/-- Every step of `LoadAssembly` on `r` succeeds, the last one yielding the
metadata facade `md`: the two seeks and the read that locate the header, the
read of the coff header, the seek to and read of the runtime header, the seek
to and read of the metadata header, the seek back and the construction of the
facade. -/
def Loader.Loads {R S H M : Type} (l : Loader R S H M) (r : R) (md : MetadataUtil M) : Prop :=
  ∃ r1 pe_offset r2 r3 coff r4 r5 cor20 r6 r7 t r8 r9,
    l.Seek r l.pe_signature_offset = .ok r1 ∧
    l.Uint32 r1 = .ok (pe_offset, r2) ∧
    l.Seek r2 (Int.ofNat pe_offset) = .ok r3 ∧
    l.ReadCoff r3 = .ok (coff, r4) ∧
    l.BinaryReader_Seek r4 (Int.ofNat
      (l.VirtualToFileOffset coff (coff.OptionalHeader.RVAS 14).VirtualAddress)) = .ok r5 ∧
    l.ReadCor20 r5 = .ok (cor20, r6) ∧
    l.BinaryReader_Seek r6 (Int.ofNat
      (l.VirtualToFileOffset coff cor20.MetaData.VirtualAddress)) = .ok r7 ∧
    l.ReadMetadataHeader r7 = .ok (t, r8) ∧
    l.BinaryReader_Seek r8 (Int.ofNat
      (l.VirtualToFileOffset coff cor20.MetaData.VirtualAddress)) = .ok r9 ∧
    l.MetadataHeader_MetadataUtil t r9 = .ok md

/-- Some step of `LoadAssembly` on `r` fails with `e`, every step before it
having succeeded: a seek, a read or the construction of the facade. -/
def Loader.StepFails {R S H M : Type} (l : Loader R S H M) (r : R) (e : GoError) : Prop :=
  l.Seek r l.pe_signature_offset = .error e ∨
  ∃ r1, l.Seek r l.pe_signature_offset = .ok r1 ∧
  (l.Uint32 r1 = .error e ∨
  ∃ pe_offset r2, l.Uint32 r1 = .ok (pe_offset, r2) ∧
  (l.Seek r2 (Int.ofNat pe_offset) = .error e ∨
  ∃ r3, l.Seek r2 (Int.ofNat pe_offset) = .ok r3 ∧
  (l.ReadCoff r3 = .error e ∨
  ∃ coff r4, l.ReadCoff r3 = .ok (coff, r4) ∧
  (l.BinaryReader_Seek r4 (Int.ofNat
      (l.VirtualToFileOffset coff (coff.OptionalHeader.RVAS 14).VirtualAddress)) = .error e ∨
  ∃ r5, l.BinaryReader_Seek r4 (Int.ofNat
      (l.VirtualToFileOffset coff (coff.OptionalHeader.RVAS 14).VirtualAddress)) = .ok r5 ∧
  (l.ReadCor20 r5 = .error e ∨
  ∃ cor20 r6, l.ReadCor20 r5 = .ok (cor20, r6) ∧
  (l.BinaryReader_Seek r6 (Int.ofNat
      (l.VirtualToFileOffset coff cor20.MetaData.VirtualAddress)) = .error e ∨
  ∃ r7, l.BinaryReader_Seek r6 (Int.ofNat
      (l.VirtualToFileOffset coff cor20.MetaData.VirtualAddress)) = .ok r7 ∧
  (l.ReadMetadataHeader r7 = .error e ∨
  ∃ t r8, l.ReadMetadataHeader r7 = .ok (t, r8) ∧
  (l.BinaryReader_Seek r8 (Int.ofNat
      (l.VirtualToFileOffset coff cor20.MetaData.VirtualAddress)) = .error e ∨
  ∃ r9, l.BinaryReader_Seek r8 (Int.ofNat
      (l.VirtualToFileOffset coff cor20.MetaData.VirtualAddress)) = .ok r9 ∧
  l.MetadataHeader_MetadataUtil t r9 = .error e))))))))

/-! ## Concrete instances -/

namespace Demo

/-- Row `n` of a TypeDef table listed row by row: `some name` is a row that
decodes to the type of that name, `none` a row that cannot be decoded. -/
def decodeRow (rows : List (Option String)) (n : Nat) : Except GoError String :=
  if n = 0 then .error ⟨"row out of range"⟩
  else
    match rows.get? (n - 1) with
    | some (some name) => .ok name
    | some none => .error ⟨"cannot decode row"⟩
    | none => .error ⟨"row out of range"⟩

/-- The metadata of an assembly with one Module row and the given TypeDef rows. -/
def metadata (rows : List (Option String)) : MetadataUtil Unit :=
  ⟨fun t => match t with
    | .id_Module => ⟨1⟩
    | .id_TypeDef => ⟨⟨rows.length % 4294967296, Nat.mod_lt _ (by decide)⟩⟩, ()⟩

/-- Collaborators over such a table.  A handle is the pair of the row number
and the decoded name; the module is named `demo.dll`; `check` rejects the
module pseudo-type; a type named `N.Broken` cannot be converted. -/
def collaborators (rows : List (Option String)) :
    Collaborators Unit String (Nat × String) Unit where
  Data := fun ci =>
    match ci with
    | ⟨_, n, .id_Module⟩ => if n = 1 then .ok ⟨"demo.dll"⟩ else .error ⟨"row out of range"⟩
    | ⟨_, n, .id_TypeDef⟩ => decodeRow rows n
  TypeDefFromIndex := fun ci =>
    match ci.table with
    | .id_TypeDef =>
      match decodeRow rows ci.index with
      | .ok name => .ok (ci.index, name)
      | .error err => .error err
    | .id_Module => .error ⟨"Expected a TypeDef index"⟩
  TypeDef_Name := fun td => ⟨td.2⟩
  TypeDef_ToContentType := fun td =>
    if td.2 = "N.Broken" then .error ⟨"cannot convert"⟩ else .ok ⟨⟨td.2⟩, ()⟩
  ToContentType := fun row => ⟨⟨row⟩, ()⟩
  check := fun _ name => if name.Absolute = "<Module>" then some ⟨"invalid name"⟩ else none
  Sprint := fun tc => tc.Name.Absolute

/-- A freshly loaded assembly over the given TypeDef rows. -/
def assembly (rows : List (Option String)) : Assembly Unit (Nat × String) :=
  ⟨metadata rows, none⟩

/-- Three rows: rows 1 and 3 carry the same name, row 2 cannot be decoded. -/
def dupRows : List (Option String) := [some "N.T", none, some "N.T"]

/-- Three rows that all decode; the first is the module pseudo-type. -/
def goodRows : List (Option String) := [some "<Module>", some "N.A", some "N.Broken"]

/-- A seek on a byte source of 4096 bytes whose state is the cursor position. -/
def seek (_ : Nat) (offset : Int) : Except GoError Nat :=
  if 0 ≤ offset ∧ offset < 4096 then .ok offset.toNat else .error ⟨"invalid seek"⟩

/-- A loader over one container: the header pointer at offset 60 holds 128,
the coff header sits at 128, one section maps the virtual range
`[0x2000, 0x3000)` to file offset `0x400`, directory slot 14 is
`(0x2050, 72)`, the runtime header at `0x450` places the metadata root at
virtual `0x2100`, and the metadata has the single TypeDef row
`MyNamespace.MyType`. -/
def loader : Loader Nat Unit Unit Unit where
  pe_signature_offset := 60
  Seek := seek
  BinaryReader_Seek := seek
  Uint32 := fun r => if r = 60 then .ok (128, 64) else .error ⟨"unexpected EOF"⟩
  ReadCoff := fun r =>
    if r = 128 then
      .ok (⟨⟨fun k => if k = 14 then ⟨8272, 72⟩ else ⟨0, 0⟩⟩, ()⟩, 512)
    else .error ⟨"unexpected EOF"⟩
  ReadCor20 := fun r =>
    if r = 1104 then .ok (⟨⟨8448, 256⟩⟩, 1176) else .error ⟨"unexpected EOF"⟩
  ReadMetadataHeader := fun r =>
    if r = 1280 then .ok ((), 1312) else .error ⟨"unexpected EOF"⟩
  VirtualToFileOffset := fun _ va =>
    if 8192 ≤ va ∧ va < 12288 then 1024 + (va - 8192) else 0
  MetadataHeader_MetadataUtil := fun _ r =>
    if r = 1280 then .ok (metadata [some "MyNamespace.MyType"])
    else .error ⟨"This does not appear to be a .net assembly"⟩

end Demo

/-! ## Lemmas -/

theorem rowNumbers_eq (rows : Fin 4294967296) :
    rowNumbers rows = (List.range rows.val).map (fun i => i + 1) := by
  unfold rowNumbers
  apply List.map_congr_left
  intro i hi
  have h1 : i < rows.val := List.mem_range.mp hi
  have h2 : rows.val < 4294967296 := rows.isLt
  rw [Nat.mod_eq_of_lt (by omega)]
  omega

theorem mem_rowNumbers (rows : Fin 4294967296) (n : Nat) :
    n ∈ rowNumbers rows ↔ 1 ≤ n ∧ n ≤ rows.val := by
  rw [rowNumbers_eq]
  simp only [List.mem_map, List.mem_range]
  constructor
  · rintro ⟨i, hi, rfl⟩
    omega
  · rintro ⟨h1, h2⟩
    exact ⟨n - 1, by omega, by omega⟩

theorem rowNumbers_nodup (rows : Fin 4294967296) : (rowNumbers rows).Nodup := by
  rw [rowNumbers_eq]
  exact (List.nodup_range _).map (fun a b h => by simpa using h)

theorem rowNumbers_length (rows : Fin 4294967296) : (rowNumbers rows).length = rows.val := by
  simp [rowNumbers]

theorem rowNumbers_pairwise (rows : Fin 4294967296) :
    (rowNumbers rows).Pairwise (fun x y => x < y) := by
  rw [rowNumbers_eq]
  exact (List.pairwise_lt_range _).map _ (fun a b h => by omega)

theorem rowNumbers_split (rows : Fin 4294967296) (l1 l2 : List Nat) (j : Nat)
    (h : rowNumbers rows = l1 ++ j :: l2) (k : Nat) :
    k ∈ l2 ↔ j < k ∧ k ≤ rows.val := by
  have hp := rowNumbers_pairwise rows
  have hm := mem_rowNumbers rows
  rw [h] at hp hm
  rw [List.pairwise_append] at hp
  obtain ⟨_, h2, h3⟩ := hp
  rw [List.pairwise_cons] at h2
  constructor
  · intro hk
    exact ⟨h2.1 k hk, ((hm k).mp (by simp [hk])).2⟩
  · rintro ⟨hjk, hkn⟩
    have hmem : k ∈ l1 ++ j :: l2 := (hm k).mpr ⟨by omega, hkn⟩
    rcases List.mem_append.mp hmem with hk | hk
    · have := h3 k hk j (by simp)
      omega
    · rcases List.mem_cons.mp hk with hk | hk
      · omega
      · exact hk

theorem TypeLut.get_filter_ne {TD : Type} (m : List (String × TD)) (k k1 : String)
    (h : k ≠ k1) : TypeLut.get (m.filter (fun p => !decide (p.1 = k))) k1 = TypeLut.get m k1 := by
  induction m with
  | nil => rfl
  | cons p m ih =>
    obtain ⟨kp, vp⟩ := p
    by_cases hk : kp = k
    · subst hk
      simp [List.filter, TypeLut.get, h, ih]
    · simp [List.filter, TypeLut.get, hk, ih]

theorem TypeLut.get_set {TD : Type} (m : List (String × TD)) (k k1 : String) (v : TD) :
    TypeLut.get (TypeLut.set m k v) k1 = if k = k1 then some v else TypeLut.get m k1 := by
  unfold TypeLut.set
  by_cases h : k = k1
  · simp [TypeLut.get, h]
  · simp [TypeLut.get, h, TypeLut.get_filter_ne m k k1 h]

theorem scan_decoded {M TypeDefRow TD P : Type} (c : Collaborators M TypeDefRow TD P)
    (md : MetadataUtil M) (ns : List Nat) (lut : List (String × TD)) (d : List Nat) :
    (FindType.scan c md ns (lut, d)).2 = d ++ ns := by
  induction ns generalizing lut d with
  | nil => simp [FindType.scan]
  | cons n ns ih =>
    cases h : c.TypeDefFromIndex ⟨md, n, .id_TypeDef⟩ <;> simp [FindType.scan, h, ih]

theorem scan_get_cases {M TypeDefRow TD P : Type} (c : Collaborators M TypeDefRow TD P)
    (md : MetadataUtil M) (k : String) (ns : List Nat) (lut : List (String × TD))
    (d : List Nat) :
    (∃ l1 j l2 td, ns = l1 ++ j :: l2 ∧ c.TypeDefFromIndex ⟨md, j, .id_TypeDef⟩ = .ok td ∧
        (c.TypeDef_Name td).Absolute = k ∧
        (∀ j1 ∈ l2, ∀ td1, c.TypeDefFromIndex ⟨md, j1, .id_TypeDef⟩ = .ok td1 →
          (c.TypeDef_Name td1).Absolute ≠ k) ∧
        TypeLut.get (FindType.scan c md ns (lut, d)).1 k = some td) ∨
    ((∀ j ∈ ns, ∀ td, c.TypeDefFromIndex ⟨md, j, .id_TypeDef⟩ = .ok td →
          (c.TypeDef_Name td).Absolute ≠ k) ∧
        TypeLut.get (FindType.scan c md ns (lut, d)).1 k = TypeLut.get lut k) := by
  induction ns generalizing lut d with
  | nil => right; simp [FindType.scan]
  | cons n ns ih =>
    cases hn : c.TypeDefFromIndex ⟨md, n, .id_TypeDef⟩ with
    | error e =>
      have hs : FindType.scan c md (n :: ns) (lut, d) = FindType.scan c md ns (lut, d ++ [n]) := by
        simp [FindType.scan, hn]
      rw [hs]
      rcases ih lut (d ++ [n]) with ⟨l1, j, l2, td, h1, h2, h3, h4, h5⟩ | ⟨h1, h2⟩
      · left
        exact ⟨n :: l1, j, l2, td, by simp [h1], h2, h3, h4, h5⟩
      · right
        refine ⟨?_, h2⟩
        intro j hj td htd
        rcases List.mem_cons.mp hj with rfl | hj
        · rw [hn] at htd; cases htd
        · exact h1 j hj td htd
    | ok td0 =>
      have hs : FindType.scan c md (n :: ns) (lut, d) =
          FindType.scan c md ns (TypeLut.set lut (c.TypeDef_Name td0).Absolute td0, d ++ [n]) := by
        simp [FindType.scan, hn]
      rw [hs]
      rcases ih (TypeLut.set lut (c.TypeDef_Name td0).Absolute td0) (d ++ [n]) with
        ⟨l1, j, l2, td, h1, h2, h3, h4, h5⟩ | ⟨h1, h2⟩
      · left
        exact ⟨n :: l1, j, l2, td, by simp [h1], h2, h3, h4, h5⟩
      · rw [TypeLut.get_set] at h2
        by_cases hk : (c.TypeDef_Name td0).Absolute = k
        · left
          refine ⟨[], n, ns, td0, rfl, hn, hk, h1, ?_⟩
          rw [h2, if_pos hk]
        · right
          refine ⟨?_, ?_⟩
          · intro j hj td htd
            rcases List.mem_cons.mp hj with rfl | hj
            · rw [hn] at htd
              cases htd
              exact hk
            · exact h1 j hj td htd
          · rw [h2, if_neg hk]

theorem FindType_empty {M TypeDefRow TD P : Type} (c : Collaborators M TypeDefRow TD P)
    (a : Assembly M TD) (t : FullyQualifiedName) (h : t.Absolute = "") :
    Assembly.FindType c a t =
      ⟨none, some (errors_New "Can only look up types with a full absolute name"), a, []⟩ := by
  simp [Assembly.FindType, h]

theorem FindType_cached {M TypeDefRow TD P : Type} (c : Collaborators M TypeDefRow TD P)
    (a : Assembly M TD) (t : FullyQualifiedName) (lut : List (String × TD))
    (h : t.Absolute ≠ "") (hc : a.typelut = some lut) :
    Assembly.FindType c a t = ⟨TypeLut.get lut t.Absolute, none, a, []⟩ := by
  simp [Assembly.FindType, h, hc]

theorem FindType_fresh {M TypeDefRow TD P : Type} (c : Collaborators M TypeDefRow TD P)
    (a : Assembly M TD) (t : FullyQualifiedName) (h : t.Absolute ≠ "")
    (hc : a.typelut = none) :
    Assembly.FindType c a t =
      ⟨TypeLut.get (builtCache c a.toMetadataUtil) t.Absolute, none,
        { a with typelut := some (builtCache c a.toMetadataUtil) },
        rowNumbers (a.toMetadataUtil.Tables .id_TypeDef).Rows⟩ := by
  simp [Assembly.FindType, h, hc, builtCache, scan_decoded]

theorem FindType_wellFormed {M TypeDefRow TD P : Type} (c : Collaborators M TypeDefRow TD P)
    (a : Assembly M TD) (t : FullyQualifiedName) (hwf : a.WellFormed c) :
    (Assembly.FindType c a t).assembly.WellFormed c := by
  by_cases h : t.Absolute = ""
  · rw [FindType_empty c a t h]; exact hwf
  · cases hc : a.typelut with
    | none => rw [FindType_fresh c a t h hc]; right; rfl
    | some lut => rw [FindType_cached c a t lut h hc]; exact hwf

theorem FindType_handle_of_wellFormed {M TypeDefRow TD P : Type}
    (c : Collaborators M TypeDefRow TD P) (a : Assembly M TD) (t : FullyQualifiedName)
    (hwf : a.WellFormed c) (h : t.Absolute ≠ "") :
    (Assembly.FindType c a t).handle = TypeLut.get (builtCache c a.toMetadataUtil) t.Absolute ∧
    (Assembly.FindType c a t).err = none := by
  cases hc : a.typelut with
  | none => rw [FindType_fresh c a t h hc]; exact ⟨rfl, rfl⟩
  | some lut =>
    rw [FindType_cached c a t lut h hc]
    rcases hwf with hw | hw
    · rw [hc] at hw; cases hw
    · rw [hc] at hw; cases hw; exact ⟨rfl, rfl⟩

theorem afterFindTypes_cached {M TypeDefRow TD P : Type} (c : Collaborators M TypeDefRow TD P)
    (a : Assembly M TD) (hc : a.typelut ≠ none) (ts : List FullyQualifiedName) :
    Assembly.afterFindTypes c a ts = a := by
  induction ts with
  | nil => rfl
  | cons t ts ih =>
    have h1 : (Assembly.FindType c a t).assembly = a := by
      by_cases h : t.Absolute = ""
      · rw [FindType_empty c a t h]
      · cases hl : a.typelut with
        | none => exact absurd hl hc
        | some lut => rw [FindType_cached c a t lut h hl]
    simp only [Assembly.afterFindTypes, h1, ih]

theorem Types_loop_ok {M TypeDefRow TD P : Type} (c : Collaborators M TypeDefRow TD P)
    (md : MetadataUtil M) (ns : List Nat) (types : List (ContentType P))
    (h : ∀ n ∈ ns, ∃ tr : TypeDefRow, c.Data ⟨md, n, .id_TypeDef⟩ = .ok tr) :
    Types.loop c md ns types = (types ++ ns.filterMap (Types.keep c md), none) := by
  induction ns generalizing types with
  | nil => simp [Types.loop]
  | cons n ns ih =>
    obtain ⟨tr, htr⟩ := h n (by simp)
    have ih2 := fun ty => ih ty (fun m hm => h m (by simp [hm]))
    cases hk : c.check (c.ToContentType tr) (c.ToContentType tr).Name with
    | none => simp [Types.loop, htr, hk, ih2, Types.keep, List.filterMap_cons]
    | some e => simp [Types.loop, htr, hk, ih2, Types.keep, List.filterMap_cons]

theorem Types_loop_error {M TypeDefRow TD P : Type} (c : Collaborators M TypeDefRow TD P)
    (md : MetadataUtil M) (l1 l2 : List Nat) (n : Nat) (e : GoError)
    (types : List (ContentType P))
    (h : ∀ m ∈ l1, ∃ tr : TypeDefRow, c.Data ⟨md, m, .id_TypeDef⟩ = .ok tr)
    (hn : c.Data ⟨md, n, .id_TypeDef⟩ = .error e) :
    Types.loop c md (l1 ++ n :: l2) types = ([], some e) := by
  induction l1 generalizing types with
  | nil => simp [Types.loop, hn]
  | cons m l1 ih =>
    obtain ⟨tr, htr⟩ := h m (by simp)
    have ih2 := fun ty => ih ty (fun k hk => h k (by simp [hk]))
    cases hk : c.check (c.ToContentType tr) (c.ToContentType tr).Name with
    | none => simp [Types.loop, htr, hk, ih2]
    | some e1 => simp [Types.loop, htr, hk, ih2]

theorem first_failure {M TypeDefRow TD P : Type} (c : Collaborators M TypeDefRow TD P)
    (md : MetadataUtil M) (ns : List Nat) :
    (∀ n ∈ ns, ∃ tr : TypeDefRow, c.Data ⟨md, n, .id_TypeDef⟩ = .ok tr) ∨
    (∃ l1 n l2 e, ns = l1 ++ n :: l2 ∧
      (∀ m ∈ l1, ∃ tr : TypeDefRow, c.Data ⟨md, m, .id_TypeDef⟩ = .ok tr) ∧
      c.Data ⟨md, n, .id_TypeDef⟩ = .error e) := by
  induction ns with
  | nil => left; simp
  | cons n ns ih =>
    cases hn : c.Data ⟨md, n, .id_TypeDef⟩ with
    | error e => right; exact ⟨[], n, ns, e, rfl, by simp, hn⟩
    | ok tr =>
      rcases ih with h | ⟨l1, k, l2, e, h1, h2, h3⟩
      · left
        intro m hm
        rcases List.mem_cons.mp hm with rfl | hm
        · exact ⟨tr, hn⟩
        · exact h m hm
      · right
        refine ⟨n :: l1, k, l2, e, by simp [h1], ?_, h3⟩
        intro m hm
        rcases List.mem_cons.mp hm with rfl | hm
        · exact ⟨tr, hn⟩
        · exact h2 m hm

theorem rowNumbers_split_left (rows : Fin 4294967296) (l1 l2 : List Nat) (j : Nat)
    (h : rowNumbers rows = l1 ++ j :: l2) (k : Nat) (hk : k ∈ l1) : 1 ≤ k ∧ k < j := by
  have hp := rowNumbers_pairwise rows
  have hm := mem_rowNumbers rows
  rw [h] at hp hm
  rw [List.pairwise_append] at hp
  exact ⟨((hm k).mp (by simp [hk])).1, hp.2.2 k hk j (by simp)⟩

theorem Types_of_all_decoded {M TypeDefRow TD P : Type} (c : Collaborators M TypeDefRow TD P)
    (a : Assembly M TD)
    (h : ∀ i, 1 ≤ i → i ≤ (a.toMetadataUtil.Tables .id_TypeDef).Rows.val →
      ∃ tr : TypeDefRow, c.Data ⟨a.toMetadataUtil, i, .id_TypeDef⟩ = .ok tr) :
    Assembly.Types c a =
      ((rowNumbers (a.toMetadataUtil.Tables .id_TypeDef).Rows).filterMap
        (Types.keep c a.toMetadataUtil), none) := by
  unfold Assembly.Types
  rw [Types_loop_ok c a.toMetadataUtil _ []
    (fun n hn => h n ((mem_rowNumbers _ _).mp hn).1 ((mem_rowNumbers _ _).mp hn).2)]
  simp

theorem Types_cases {M TypeDefRow TD P : Type} (c : Collaborators M TypeDefRow TD P)
    (a : Assembly M TD) :
    ((∀ i, 1 ≤ i → i ≤ (a.toMetadataUtil.Tables .id_TypeDef).Rows.val →
        ∃ tr : TypeDefRow, c.Data ⟨a.toMetadataUtil, i, .id_TypeDef⟩ = .ok tr) ∧
      Assembly.Types c a =
        ((rowNumbers (a.toMetadataUtil.Tables .id_TypeDef).Rows).filterMap
          (Types.keep c a.toMetadataUtil), none)) ∨
    (∃ i e, 1 ≤ i ∧ i ≤ (a.toMetadataUtil.Tables .id_TypeDef).Rows.val ∧
      c.Data ⟨a.toMetadataUtil, i, .id_TypeDef⟩ = .error e ∧
      (∀ j, 1 ≤ j → j < i →
        ∃ tr : TypeDefRow, c.Data ⟨a.toMetadataUtil, j, .id_TypeDef⟩ = .ok tr) ∧
      Assembly.Types c a = ([], some e)) := by
  rcases first_failure c a.toMetadataUtil
      (rowNumbers (a.toMetadataUtil.Tables .id_TypeDef).Rows) with h | ⟨l1, n, l2, e, h1, h2, h3⟩
  · left
    have h2 : ∀ i, 1 ≤ i → i ≤ (a.toMetadataUtil.Tables .id_TypeDef).Rows.val →
        ∃ tr : TypeDefRow, c.Data ⟨a.toMetadataUtil, i, .id_TypeDef⟩ = .ok tr :=
      fun i hi1 hi2 => h i ((mem_rowNumbers _ _).mpr ⟨hi1, hi2⟩)
    exact ⟨h2, Types_of_all_decoded c a h2⟩
  · right
    have hn : n ∈ rowNumbers (a.toMetadataUtil.Tables .id_TypeDef).Rows := by
      rw [h1]; simp
    rw [mem_rowNumbers] at hn
    refine ⟨n, e, hn.1, hn.2, h3, ?_, ?_⟩
    · intro j hj1 hj2
      have hj : j ∈ l1 ++ n :: l2 := by
        rw [← h1, mem_rowNumbers]; omega
      rcases List.mem_append.mp hj with hj | hj
      · exact h2 j hj
      · rcases List.mem_cons.mp hj with hj | hj
        · omega
        · have := ((rowNumbers_split _ l1 l2 n h1 j).mp hj).1
          omega
    · unfold Assembly.Types
      rw [h1]
      exact Types_loop_error c a.toMetadataUtil l1 l2 n e [] h2 h3

theorem keep_eq_some {M TypeDefRow TD P : Type} (c : Collaborators M TypeDefRow TD P)
    (md : MetadataUtil M) (n : Nat) (tc : ContentType P) :
    Types.keep c md n = some tc ↔
      ∃ tr : TypeDefRow, c.Data ⟨md, n, .id_TypeDef⟩ = .ok tr ∧ tc = c.ToContentType tr ∧
        c.check tc tc.Name = none := by
  unfold Types.keep
  cases hd : c.Data ⟨md, n, .id_TypeDef⟩ with
  | error e => simp
  | ok tr =>
    dsimp only
    cases hk : c.check (c.ToContentType tr) (c.ToContentType tr).Name with
    | none =>
      dsimp only
      constructor
      · intro h
        have h1 : c.ToContentType tr = tc := Option.some.inj h
        subst h1
        exact ⟨tr, rfl, rfl, hk⟩
      · rintro ⟨tr1, h1, h2, _⟩
        cases h1
        rw [h2]
    | some e =>
      dsimp only
      constructor
      · intro h
        cases h
      · rintro ⟨tr1, h1, h2, h3⟩
        cases h1
        rw [h2, hk] at h3
        cases h3

theorem notFound_ne_invalid {M TypeDefRow TD P : Type} (c : Collaborators M TypeDefRow TD P)
    (t : ContentType P) :
    notFound c t ≠ errors_New "Can only look up types with a full absolute name" := by
  intro h
  have h1 := congrArg (fun e => e.msg.data.head?) h
  simp [notFound, errors_New, String.data_append] at h1

theorem Complete_assembly {M TypeDefRow TD P : Type} (c : Collaborators M TypeDefRow TD P)
    (a : Assembly M TD) (t : ContentType P) :
    (Assembly.Complete c a t).assembly = (Assembly.FindType c a t.Name).assembly := by
  unfold Assembly.Complete
  dsimp only
  split
  · rfl
  · split
    · rfl
    · split <;> rfl

theorem LoadAssembly_shape {R S H M : Type} (TD : Type) (l : Loader R S H M) (r : R) :
    (∃ e, LoadAssembly TD l r = (none, some e)) ∨
    (∃ md, LoadAssembly TD l r = (some ⟨md, none⟩, none)) := by
  unfold LoadAssembly
  cases l.Seek r l.pe_signature_offset with
  | error e => exact Or.inl ⟨e, rfl⟩
  | ok r1 =>
  dsimp only
  cases l.Uint32 r1 with
  | error e => exact Or.inl ⟨e, rfl⟩
  | ok p =>
  obtain ⟨pe_offset, r2⟩ := p
  dsimp only
  cases l.Seek r2 (Int.ofNat pe_offset) with
  | error e => exact Or.inl ⟨e, rfl⟩
  | ok r3 =>
  dsimp only
  cases l.ReadCoff r3 with
  | error e => exact Or.inl ⟨e, rfl⟩
  | ok q =>
  obtain ⟨coff, r4⟩ := q
  dsimp only
  cases l.BinaryReader_Seek r4
      (Int.ofNat (l.VirtualToFileOffset coff (coff.OptionalHeader.RVAS 14).VirtualAddress)) with
  | error e => exact Or.inl ⟨e, rfl⟩
  | ok r5 =>
  dsimp only
  cases l.ReadCor20 r5 with
  | error e => exact Or.inl ⟨e, rfl⟩
  | ok q2 =>
  obtain ⟨cor20, r6⟩ := q2
  dsimp only
  cases l.BinaryReader_Seek r6
      (Int.ofNat (l.VirtualToFileOffset coff cor20.MetaData.VirtualAddress)) with
  | error e => exact Or.inl ⟨e, rfl⟩
  | ok r7 =>
  dsimp only
  cases l.ReadMetadataHeader r7 with
  | error e => exact Or.inl ⟨e, rfl⟩
  | ok q3 =>
  obtain ⟨t, r8⟩ := q3
  dsimp only
  cases l.BinaryReader_Seek r8
      (Int.ofNat (l.VirtualToFileOffset coff cor20.MetaData.VirtualAddress)) with
  | error e => exact Or.inl ⟨e, rfl⟩
  | ok r9 =>
  dsimp only
  cases l.MetadataHeader_MetadataUtil t r9 with
  | error e => exact Or.inl ⟨e, rfl⟩
  | ok md => exact Or.inr ⟨md, rfl⟩

theorem LoadAssembly_wellFormed {R S H M TypeDefRow TD P : Type}
    (c : Collaborators M TypeDefRow TD P) (l : Loader R S H M) (r : R) (a : Assembly M TD)
    (h : (LoadAssembly TD l r).1 = some a) : a.WellFormed c := by
  left
  rcases LoadAssembly_shape TD l r with ⟨e, he⟩ | ⟨md, hmd⟩
  · rw [he] at h; cases h
  · rw [hmd] at h
    cases h
    rfl

theorem Complete_wellFormed {M TypeDefRow TD P : Type} (c : Collaborators M TypeDefRow TD P)
    (a : Assembly M TD) (t : ContentType P) (hwf : a.WellFormed c) :
    (Assembly.Complete c a t).assembly.WellFormed c := by
  rw [Complete_assembly]
  exact FindType_wellFormed c a t.Name hwf

theorem TypeLut.mem_set {TD : Type} (m : List (String × TD)) (k : String) (v : TD)
    (p : String × TD) (h : p ∈ TypeLut.set m k v) : p = (k, v) ∨ p ∈ m := by
  unfold TypeLut.set at h
  rcases List.mem_cons.mp h with h | h
  · exact Or.inl h
  · exact Or.inr (List.mem_filter.mp h).1

theorem TypeLut.set_keys_nodup {TD : Type} (m : List (String × TD)) (k : String) (v : TD)
    (h : (m.map Prod.fst).Nodup) : ((TypeLut.set m k v).map Prod.fst).Nodup := by
  unfold TypeLut.set
  rw [List.map_cons, List.nodup_cons]
  constructor
  · intro hk
    obtain ⟨p, hp, hpk⟩ := List.mem_map.mp hk
    have := (List.mem_filter.mp hp).2
    simp [hpk] at this
  · exact (List.filter_sublist m).map Prod.fst |>.nodup h

theorem scan_mem {M TypeDefRow TD P : Type} (c : Collaborators M TypeDefRow TD P)
    (md : MetadataUtil M) (ns : List Nat) (lut : List (String × TD)) (d : List Nat)
    (p : String × TD) (h : p ∈ (FindType.scan c md ns (lut, d)).1) :
    p ∈ lut ∨ ∃ j ∈ ns, c.TypeDefFromIndex ⟨md, j, .id_TypeDef⟩ = .ok p.2 ∧
      (c.TypeDef_Name p.2).Absolute = p.1 := by
  induction ns generalizing lut d with
  | nil => left; simpa [FindType.scan] using h
  | cons n ns ih =>
    cases hn : c.TypeDefFromIndex ⟨md, n, .id_TypeDef⟩ with
    | error e =>
      have hs : FindType.scan c md (n :: ns) (lut, d) = FindType.scan c md ns (lut, d ++ [n]) := by
        simp [FindType.scan, hn]
      rw [hs] at h
      rcases ih lut (d ++ [n]) h with h1 | ⟨j, hj, h1⟩
      · exact Or.inl h1
      · exact Or.inr ⟨j, List.mem_cons_of_mem _ hj, h1⟩
    | ok td0 =>
      have hs : FindType.scan c md (n :: ns) (lut, d) =
          FindType.scan c md ns (TypeLut.set lut (c.TypeDef_Name td0).Absolute td0, d ++ [n]) := by
        simp [FindType.scan, hn]
      rw [hs] at h
      rcases ih _ (d ++ [n]) h with h1 | ⟨j, hj, h1⟩
      · rcases TypeLut.mem_set _ _ _ _ h1 with h2 | h2
        · right
          subst h2
          exact ⟨n, List.mem_cons_self _ _, hn, rfl⟩
        · exact Or.inl h2
      · exact Or.inr ⟨j, List.mem_cons_of_mem _ hj, h1⟩

theorem scan_keys_nodup {M TypeDefRow TD P : Type} (c : Collaborators M TypeDefRow TD P)
    (md : MetadataUtil M) (ns : List Nat) (lut : List (String × TD)) (d : List Nat)
    (h : (lut.map Prod.fst).Nodup) :
    ((FindType.scan c md ns (lut, d)).1.map Prod.fst).Nodup := by
  induction ns generalizing lut d with
  | nil => simpa [FindType.scan] using h
  | cons n ns ih =>
    cases hn : c.TypeDefFromIndex ⟨md, n, .id_TypeDef⟩ with
    | error e =>
      have hs : FindType.scan c md (n :: ns) (lut, d) = FindType.scan c md ns (lut, d ++ [n]) := by
        simp [FindType.scan, hn]
      rw [hs]
      exact ih lut _ h
    | ok td0 =>
      have hs : FindType.scan c md (n :: ns) (lut, d) =
          FindType.scan c md ns (TypeLut.set lut (c.TypeDef_Name td0).Absolute td0, d ++ [n]) := by
        simp [FindType.scan, hn]
      rw [hs]
      exact ih _ _ (TypeLut.set_keys_nodup _ _ _ h)

theorem builtCache_entry {M TypeDefRow TD P : Type} (c : Collaborators M TypeDefRow TD P)
    (md : MetadataUtil M) (k : String) (td : TD) (h : (k, td) ∈ builtCache c md) :
    ∃ j, 1 ≤ j ∧ j ≤ (md.Tables .id_TypeDef).Rows.val ∧
      c.TypeDefFromIndex ⟨md, j, .id_TypeDef⟩ = .ok td ∧ (c.TypeDef_Name td).Absolute = k := by
  rcases scan_mem c md _ [] [] (k, td) h with h1 | ⟨j, hj, h1, h2⟩
  · cases h1
  · rw [mem_rowNumbers] at hj
    exact ⟨j, hj.1, hj.2, h1, h2⟩

theorem LoadAssembly_of_loads {R S H M : Type} (TD : Type) (l : Loader R S H M) (r : R)
    (md : MetadataUtil M) (h : l.Loads r md) :
    LoadAssembly TD l r = (some ⟨md, none⟩, none) := by
  obtain ⟨r1, pe, r2, r3, coff, r4, r5, cor20, r6, r7, t, r8, r9,
    h1, h2, h3, h4, h5, h6, h7, h8, h9, h10⟩ := h
  simp only [LoadAssembly, h1, h2, h3, h4, h5, h6, h7, h8, h9, h10]

theorem LoadAssembly_of_stepFails {R S H M : Type} (TD : Type) (l : Loader R S H M) (r : R)
    (e : GoError) (h : l.StepFails r e) : LoadAssembly TD l r = (none, some e) := by
  rcases h with h1 | ⟨r1, h1, h2 | ⟨pe, r2, h2, h3 | ⟨r3, h3, h4 | ⟨coff, r4, h4,
    h5 | ⟨r5, h5, h6 | ⟨cor20, r6, h6, h7 | ⟨r7, h7, h8 | ⟨t, r8, h8,
    h9 | ⟨r9, h9, h10⟩⟩⟩⟩⟩⟩⟩⟩⟩
  · simp only [LoadAssembly, h1]
  · simp only [LoadAssembly, h1, h2]
  · simp only [LoadAssembly, h1, h2, h3]
  · simp only [LoadAssembly, h1, h2, h3, h4]
  · simp only [LoadAssembly, h1, h2, h3, h4, h5]
  · simp only [LoadAssembly, h1, h2, h3, h4, h5, h6]
  · simp only [LoadAssembly, h1, h2, h3, h4, h5, h6, h7]
  · simp only [LoadAssembly, h1, h2, h3, h4, h5, h6, h7, h8]
  · simp only [LoadAssembly, h1, h2, h3, h4, h5, h6, h7, h8, h9]
  · simp only [LoadAssembly, h1, h2, h3, h4, h5, h6, h7, h8, h9, h10]

theorem stepFails_or_loads {R S H M : Type} (l : Loader R S H M) (r : R) :
    (∃ e, l.StepFails r e) ∨ (∃ md, l.Loads r md) := by
  unfold Loader.StepFails Loader.Loads
  cases h1 : l.Seek r l.pe_signature_offset with
  | error e => exact Or.inl ⟨e, Or.inl rfl⟩
  | ok r1 =>
  cases h2 : l.Uint32 r1 with
  | error e => exact Or.inl ⟨e, Or.inr ⟨r1, rfl, Or.inl h2⟩⟩
  | ok p =>
  obtain ⟨pe, r2⟩ := p
  cases h3 : l.Seek r2 (Int.ofNat pe) with
  | error e => exact Or.inl ⟨e, Or.inr ⟨r1, rfl, Or.inr ⟨pe, r2, h2, Or.inl h3⟩⟩⟩
  | ok r3 =>
  cases h4 : l.ReadCoff r3 with
  | error e =>
    exact Or.inl ⟨e, Or.inr ⟨r1, rfl, Or.inr ⟨pe, r2, h2, Or.inr ⟨r3, h3, Or.inl h4⟩⟩⟩⟩
  | ok q =>
  obtain ⟨coff, r4⟩ := q
  cases h5 : l.BinaryReader_Seek r4 (Int.ofNat
      (l.VirtualToFileOffset coff (coff.OptionalHeader.RVAS 14).VirtualAddress)) with
  | error e =>
    exact Or.inl ⟨e, Or.inr ⟨r1, rfl, Or.inr ⟨pe, r2, h2, Or.inr ⟨r3, h3,
      Or.inr ⟨coff, r4, h4, Or.inl h5⟩⟩⟩⟩⟩
  | ok r5 =>
  cases h6 : l.ReadCor20 r5 with
  | error e =>
    exact Or.inl ⟨e, Or.inr ⟨r1, rfl, Or.inr ⟨pe, r2, h2, Or.inr ⟨r3, h3,
      Or.inr ⟨coff, r4, h4, Or.inr ⟨r5, h5, Or.inl h6⟩⟩⟩⟩⟩⟩
  | ok q2 =>
  obtain ⟨cor20, r6⟩ := q2
  cases h7 : l.BinaryReader_Seek r6 (Int.ofNat
      (l.VirtualToFileOffset coff cor20.MetaData.VirtualAddress)) with
  | error e =>
    exact Or.inl ⟨e, Or.inr ⟨r1, rfl, Or.inr ⟨pe, r2, h2, Or.inr ⟨r3, h3,
      Or.inr ⟨coff, r4, h4, Or.inr ⟨r5, h5, Or.inr ⟨cor20, r6, h6, Or.inl h7⟩⟩⟩⟩⟩⟩⟩
  | ok r7 =>
  cases h8 : l.ReadMetadataHeader r7 with
  | error e =>
    exact Or.inl ⟨e, Or.inr ⟨r1, rfl, Or.inr ⟨pe, r2, h2, Or.inr ⟨r3, h3,
      Or.inr ⟨coff, r4, h4, Or.inr ⟨r5, h5, Or.inr ⟨cor20, r6, h6,
        Or.inr ⟨r7, h7, Or.inl h8⟩⟩⟩⟩⟩⟩⟩⟩
  | ok q3 =>
  obtain ⟨t, r8⟩ := q3
  cases h9 : l.BinaryReader_Seek r8 (Int.ofNat
      (l.VirtualToFileOffset coff cor20.MetaData.VirtualAddress)) with
  | error e =>
    exact Or.inl ⟨e, Or.inr ⟨r1, rfl, Or.inr ⟨pe, r2, h2, Or.inr ⟨r3, h3,
      Or.inr ⟨coff, r4, h4, Or.inr ⟨r5, h5, Or.inr ⟨cor20, r6, h6,
        Or.inr ⟨r7, h7, Or.inr ⟨t, r8, h8, Or.inl h9⟩⟩⟩⟩⟩⟩⟩⟩⟩
  | ok r9 =>
  cases h10 : l.MetadataHeader_MetadataUtil t r9 with
  | error e =>
    exact Or.inl ⟨e, Or.inr ⟨r1, rfl, Or.inr ⟨pe, r2, h2, Or.inr ⟨r3, h3,
      Or.inr ⟨coff, r4, h4, Or.inr ⟨r5, h5, Or.inr ⟨cor20, r6, h6,
        Or.inr ⟨r7, h7, Or.inr ⟨t, r8, h8, Or.inr ⟨r9, h9, h10⟩⟩⟩⟩⟩⟩⟩⟩⟩⟩
  | ok md =>
    exact Or.inr ⟨md, r1, pe, r2, r3, coff, r4, r5, cor20, r6, r7, t, r8, r9,
      rfl, h2, h3, h4, h5, h6, h7, h8, h9, h10⟩

theorem LoadAssembly_error_iff {R S H M : Type} (TD : Type) (l : Loader R S H M) (r : R)
    (e : GoError) : (LoadAssembly TD l r).2 = some e ↔ l.StepFails r e := by
  constructor
  · intro h
    rcases stepFails_or_loads l r with ⟨e1, h1⟩ | ⟨md, h1⟩
    · rw [LoadAssembly_of_stepFails TD l r e1 h1] at h
      cases h
      exact h1
    · rw [LoadAssembly_of_loads TD l r md h1] at h
      cases h
  · intro h
    rw [LoadAssembly_of_stepFails TD l r e h]

theorem LoadAssembly_loads_iff {R S H M : Type} (TD : Type) (l : Loader R S H M) (r : R)
    (md : MetadataUtil M) :
    LoadAssembly TD l r = (some ⟨md, none⟩, none) ↔ l.Loads r md := by
  constructor
  · intro h
    rcases stepFails_or_loads l r with ⟨e1, h1⟩ | ⟨md1, h1⟩
    · rw [LoadAssembly_of_stepFails TD l r e1 h1] at h
      cases h
    · rw [LoadAssembly_of_loads TD l r md1 h1] at h
      cases h
      exact h1
  · exact LoadAssembly_of_loads TD l r md

/-! ## C1. `FindType`: the empty name -/

/-- C1: whatever the TypeDef table holds and whether or not the cache is built,
`FindType` with an empty `Absolute` name returns a nil handle and the
invalid-argument error, decodes no row and leaves the assembly as it was. -/
theorem FindType_rejects_empty_name {M TypeDefRow TD P : Type}
    (c : Collaborators M TypeDefRow TD P) (a : Assembly M TD) (t : FullyQualifiedName)
    (h : t.Absolute = "") :
    (Assembly.FindType c a t).handle = none ∧
    (Assembly.FindType c a t).err =
      some (errors_New "Can only look up types with a full absolute name") ∧
    (Assembly.FindType c a t).assembly = a ∧
    (Assembly.FindType c a t).decoded = [] := by
  rw [FindType_empty c a t h]
  exact ⟨rfl, rfl, rfl, rfl⟩

/-- The empty name on the three-row demo assembly. -/
theorem FindType_rejects_empty_name_witness :
    (FullyQualifiedName.mk "").Absolute = "" ∧
    (Assembly.FindType (Demo.collaborators Demo.dupRows) (Demo.assembly Demo.dupRows)
      ⟨""⟩).handle = none ∧
    (Assembly.FindType (Demo.collaborators Demo.dupRows) (Demo.assembly Demo.dupRows)
      ⟨""⟩).err = some (errors_New "Can only look up types with a full absolute name") :=
  ⟨rfl, (FindType_rejects_empty_name _ _ _ rfl).1, (FindType_rejects_empty_name _ _ _ rfl).2.1⟩

/-! ## C2. `FindType`: absent names -/

/-- C2: on an assembly in a state the code can produce, `FindType` with a
non-empty name that no decodable TypeDef row in `1..N` carries returns a nil
handle and a nil error. -/
theorem FindType_absent_name {M TypeDefRow TD P : Type}
    (c : Collaborators M TypeDefRow TD P) (a : Assembly M TD) (t : FullyQualifiedName)
    (hwf : a.WellFormed c) (ht : t.Absolute ≠ "")
    (habs : ∀ i, 1 ≤ i → i ≤ (a.toMetadataUtil.Tables .id_TypeDef).Rows.val →
      ∀ td, c.TypeDefFromIndex ⟨a.toMetadataUtil, i, .id_TypeDef⟩ = .ok td →
        (c.TypeDef_Name td).Absolute ≠ t.Absolute) :
    (Assembly.FindType c a t).handle = none ∧ (Assembly.FindType c a t).err = none := by
  obtain ⟨h1, h2⟩ := FindType_handle_of_wellFormed c a t hwf ht
  refine ⟨?_, h2⟩
  rw [h1]
  unfold builtCache
  rcases scan_get_cases c a.toMetadataUtil t.Absolute
      (rowNumbers (a.toMetadataUtil.Tables .id_TypeDef).Rows) [] [] with
    ⟨l1, j, l2, td, e1, e2, e3, _, _⟩ | ⟨_, e2⟩
  · exfalso
    have hj : j ∈ rowNumbers (a.toMetadataUtil.Tables .id_TypeDef).Rows := by
      rw [e1]; simp
    rw [mem_rowNumbers] at hj
    exact habs j hj.1 hj.2 td e2 e3
  · rw [e2]; rfl

/-- The name `Nope` on the three-row demo assembly, whose rows are named `N.T`. -/
theorem FindType_absent_name_witness :
    (Assembly.FindType (Demo.collaborators Demo.dupRows) (Demo.assembly Demo.dupRows)
      ⟨"Nope"⟩).handle = none ∧
    (Assembly.FindType (Demo.collaborators Demo.dupRows) (Demo.assembly Demo.dupRows)
      ⟨"Nope"⟩).err = none :=
  FindType_absent_name (Demo.collaborators Demo.dupRows) (Demo.assembly Demo.dupRows) ⟨"Nope"⟩
    (Or.inl rfl) (by decide)
    (by
      intro i h1 h2 td htd
      have h3 : i ≤ 3 := h2
      interval_cases i
      · cases htd; decide
      · cases htd
      · cases htd; decide)

/-! ## C3. `FindType`: cache idempotence -/

/-- C3: two consecutive `FindType` calls with the same non-empty name return
the same handle and error; the first call leaves a non-nil cache; the second
call decodes no row and leaves the assembly unchanged, as does every call on an
assembly whose cache is non-nil; over both calls no row is decoded twice. -/
theorem FindType_twice {M TypeDefRow TD P : Type}
    (c : Collaborators M TypeDefRow TD P) (a : Assembly M TD) (t : FullyQualifiedName)
    (ht : t.Absolute ≠ "") :
    (Assembly.FindType c (Assembly.FindType c a t).assembly t).handle =
      (Assembly.FindType c a t).handle ∧
    (Assembly.FindType c (Assembly.FindType c a t).assembly t).err =
      (Assembly.FindType c a t).err ∧
    (Assembly.FindType c a t).assembly.typelut ≠ none ∧
    (Assembly.FindType c (Assembly.FindType c a t).assembly t).decoded = [] ∧
    (Assembly.FindType c (Assembly.FindType c a t).assembly t).assembly =
      (Assembly.FindType c a t).assembly ∧
    ((Assembly.FindType c a t).decoded ++
      (Assembly.FindType c (Assembly.FindType c a t).assembly t).decoded).Nodup ∧
    (∀ (b : Assembly M TD) (u : FullyQualifiedName), b.typelut ≠ none →
      (Assembly.FindType c b u).decoded = [] ∧ (Assembly.FindType c b u).assembly = b) := by
  have hgen : ∀ (b : Assembly M TD) (u : FullyQualifiedName), b.typelut ≠ none →
      (Assembly.FindType c b u).decoded = [] ∧ (Assembly.FindType c b u).assembly = b := by
    intro b u hb
    by_cases hu : u.Absolute = ""
    · rw [FindType_empty c b u hu]; exact ⟨rfl, rfl⟩
    · cases hl : b.typelut with
      | none => exact absurd hl hb
      | some lut => rw [FindType_cached c b u lut hu hl]; exact ⟨rfl, rfl⟩
  cases hc : a.typelut with
  | some lut =>
    rw [FindType_cached c a t lut ht hc, FindType_cached c a t lut ht hc]
    refine ⟨rfl, rfl, ?_, rfl, rfl, ?_, hgen⟩
    · rw [hc]; simp
    · simp
  | none =>
    rw [FindType_fresh c a t ht hc]
    rw [FindType_cached c _ t (builtCache c a.toMetadataUtil) ht rfl]
    refine ⟨rfl, rfl, ?_, rfl, rfl, ?_, hgen⟩
    · simp
    · simpa using rowNumbers_nodup _

/-- Two lookups of `N.T`: the first decodes rows 1, 2, 3, the second none. -/
theorem FindType_twice_witness :
    (Assembly.FindType (Demo.collaborators Demo.dupRows)
      (Assembly.FindType (Demo.collaborators Demo.dupRows) (Demo.assembly Demo.dupRows)
        ⟨"N.T"⟩).assembly ⟨"N.T"⟩).handle = some (3, "N.T") ∧
    (Assembly.FindType (Demo.collaborators Demo.dupRows) (Demo.assembly Demo.dupRows)
      ⟨"N.T"⟩).decoded = [1, 2, 3] ∧
    (Assembly.FindType (Demo.collaborators Demo.dupRows)
      (Assembly.FindType (Demo.collaborators Demo.dupRows) (Demo.assembly Demo.dupRows)
        ⟨"N.T"⟩).assembly ⟨"N.T"⟩).decoded = [] :=
  ⟨(FindType_twice (Demo.collaborators Demo.dupRows) (Demo.assembly Demo.dupRows) ⟨"N.T"⟩
      (by decide)).1.trans (by decide),
    by decide,
    (FindType_twice (Demo.collaborators Demo.dupRows) (Demo.assembly Demo.dupRows) ⟨"N.T"⟩
      (by decide)).2.2.2.1⟩

/-! ## C4. `FindType`: contents of the cache -/

/-- C4 as stated fails: over the rows `N.T`, undecodable, `N.T` the first
`FindType` call leaves a cache that maps the name of row 1 to the handle of
row 3, not to the handle of row 1. -/
theorem FindType_cache_not_complete :
    ¬ (∀ i, 1 ≤ i → i ≤ ((Demo.assembly Demo.dupRows).toMetadataUtil.Tables
          .id_TypeDef).Rows.val →
        ∀ td, (Demo.collaborators Demo.dupRows).TypeDefFromIndex
            ⟨(Demo.assembly Demo.dupRows).toMetadataUtil, i, .id_TypeDef⟩ = .ok td →
          ∃ lut, (Assembly.FindType (Demo.collaborators Demo.dupRows)
              (Demo.assembly Demo.dupRows) ⟨"N.T"⟩).assembly.typelut = some lut ∧
            TypeLut.get lut ((Demo.collaborators Demo.dupRows).TypeDef_Name td).Absolute =
              some td) := by
  intro h
  obtain ⟨lut, h1, h2⟩ := h 1 (by decide) (by decide) (1, "N.T") rfl
  have h3 : lut = [("N.T", (3, "N.T"))] := by
    have : (Assembly.FindType (Demo.collaborators Demo.dupRows)
        (Demo.assembly Demo.dupRows) ⟨"N.T"⟩).assembly.typelut =
        some [("N.T", (3, "N.T"))] := by decide
    rw [this] at h1
    exact (Option.some.inj h1).symm
  subst h3
  revert h2
  decide

/-- C4 amended: after the first `FindType` call with a non-empty name on a
freshly loaded assembly the cache is non-nil and has one entry per name; for
every row `i` in `1..N` that `TypeDefFromIndex` decodes it holds, under that
row's absolute name, the handle of the last decodable row `j ≥ i` carrying the
same name (row `i` itself when no later row shares its name); every entry of
the cache is the handle of a decodable row in `1..N` stored under that row's
absolute name, so a row that fails to decode contributes no entry and a name
carried by no decodable row is absent; later `FindType` calls leave the
assembly, cache included, unchanged. -/
theorem FindType_cache_last_row_wins {M TypeDefRow TD P : Type}
    (c : Collaborators M TypeDefRow TD P) (a : Assembly M TD) (t : FullyQualifiedName)
    (hc : a.typelut = none) (ht : t.Absolute ≠ "") :
    ∃ lut, (Assembly.FindType c a t).assembly.typelut = some lut ∧
      (lut.map Prod.fst).Nodup ∧
      (∀ i, 1 ≤ i → i ≤ (a.toMetadataUtil.Tables .id_TypeDef).Rows.val →
        ∀ td, c.TypeDefFromIndex ⟨a.toMetadataUtil, i, .id_TypeDef⟩ = .ok td →
          ∃ j tdj, i ≤ j ∧ j ≤ (a.toMetadataUtil.Tables .id_TypeDef).Rows.val ∧
            c.TypeDefFromIndex ⟨a.toMetadataUtil, j, .id_TypeDef⟩ = .ok tdj ∧
            (c.TypeDef_Name tdj).Absolute = (c.TypeDef_Name td).Absolute ∧
            (∀ k, j < k → k ≤ (a.toMetadataUtil.Tables .id_TypeDef).Rows.val →
              ∀ tdk, c.TypeDefFromIndex ⟨a.toMetadataUtil, k, .id_TypeDef⟩ = .ok tdk →
                (c.TypeDef_Name tdk).Absolute ≠ (c.TypeDef_Name td).Absolute) ∧
            TypeLut.get lut (c.TypeDef_Name td).Absolute = some tdj) ∧
      (∀ k td, (k, td) ∈ lut →
        ∃ j, 1 ≤ j ∧ j ≤ (a.toMetadataUtil.Tables .id_TypeDef).Rows.val ∧
          c.TypeDefFromIndex ⟨a.toMetadataUtil, j, .id_TypeDef⟩ = .ok td ∧
          (c.TypeDef_Name td).Absolute = k) ∧
      (∀ k, (∀ j, 1 ≤ j → j ≤ (a.toMetadataUtil.Tables .id_TypeDef).Rows.val →
          ∀ td, c.TypeDefFromIndex ⟨a.toMetadataUtil, j, .id_TypeDef⟩ = .ok td →
            (c.TypeDef_Name td).Absolute ≠ k) →
        TypeLut.get lut k = none ∧ ∀ td, (k, td) ∉ lut) ∧
      (∀ ts, Assembly.afterFindTypes c (Assembly.FindType c a t).assembly ts =
        (Assembly.FindType c a t).assembly) := by
  refine ⟨builtCache c a.toMetadataUtil, ?_, ?_, ?_, ?_, ?_, ?_⟩
  · rw [FindType_fresh c a t ht hc]
  · exact scan_keys_nodup c a.toMetadataUtil _ [] [] List.nodup_nil
  · intro i hi1 hi2 td htd
    have hi : i ∈ rowNumbers (a.toMetadataUtil.Tables .id_TypeDef).Rows :=
      (mem_rowNumbers _ _).mpr ⟨hi1, hi2⟩
    unfold builtCache
    rcases scan_get_cases c a.toMetadataUtil (c.TypeDef_Name td).Absolute
        (rowNumbers (a.toMetadataUtil.Tables .id_TypeDef).Rows) [] [] with
      ⟨l1, j, l2, tdj, e1, e2, e3, e4, e5⟩ | ⟨e1, _⟩
    · have hsplit := rowNumbers_split _ l1 l2 j e1
      have hj : j ∈ rowNumbers (a.toMetadataUtil.Tables .id_TypeDef).Rows := by
        rw [e1]; simp
      rw [mem_rowNumbers] at hj
      refine ⟨j, tdj, ?_, hj.2, e2, e3, ?_, e5⟩
      · by_contra hlt
        have hlt2 : j < i := by omega
        exact e4 i ((hsplit i).mpr ⟨hlt2, hi2⟩) td htd rfl
      · intro k hk1 hk2 tdk htdk
        exact e4 k ((hsplit k).mpr ⟨hk1, hk2⟩) tdk htdk
    · exact absurd rfl (e1 i hi td htd)
  · intro k td hmem
    exact builtCache_entry c a.toMetadataUtil k td hmem
  · intro k hk
    constructor
    · unfold builtCache
      rcases scan_get_cases c a.toMetadataUtil k
          (rowNumbers (a.toMetadataUtil.Tables .id_TypeDef).Rows) [] [] with
        ⟨l1, j, l2, td, e1, e2, e3, _, _⟩ | ⟨_, e2⟩
      · exfalso
        have hj : j ∈ rowNumbers (a.toMetadataUtil.Tables .id_TypeDef).Rows := by
          rw [e1]; simp
        rw [mem_rowNumbers] at hj
        exact hk j hj.1 hj.2 td e2 e3
      · rw [e2]; rfl
    · intro td hmem
      obtain ⟨j, h1, h2, h3, h4⟩ := builtCache_entry c a.toMetadataUtil k td hmem
      exact hk j h1 h2 td h3 h4
  · intro ts
    apply afterFindTypes_cached
    rw [FindType_fresh c a t ht hc]
    simp

/-- On the rows `N.T`, undecodable, `N.T` the cache is the single entry that
holds the handle of row 3 under `N.T`. -/
theorem FindType_cache_last_row_wins_witness :
    ∃ lut, (Assembly.FindType (Demo.collaborators Demo.dupRows) (Demo.assembly Demo.dupRows)
        ⟨"N.T"⟩).assembly.typelut = some lut ∧ lut = [("N.T", (3, "N.T"))] ∧
      TypeLut.get lut "N.T" = some (3, "N.T") := by
  obtain ⟨lut, h1, _⟩ := FindType_cache_last_row_wins (Demo.collaborators Demo.dupRows)
    (Demo.assembly Demo.dupRows) ⟨"N.T"⟩ rfl (by decide)
  refine ⟨lut, h1, ?_⟩
  have : (Assembly.FindType (Demo.collaborators Demo.dupRows)
      (Demo.assembly Demo.dupRows) ⟨"N.T"⟩).assembly.typelut =
      some [("N.T", (3, "N.T"))] := by decide
  rw [this] at h1
  cases h1
  exact ⟨rfl, by decide⟩

/-! ## C5. `Types`: the entries returned -/

/-- C5: when `Types` succeeds on a TypeDef table of `N` rows it returns at most
`N` entries; every entry is the conversion of a row in `1..N` that `check`
accepts; the conversion of a row that `check` rejects is not among the entries;
and the conversion of every accepted row is. -/
theorem Types_entries {M TypeDefRow TD P : Type} (c : Collaborators M TypeDefRow TD P)
    (a : Assembly M TD) (hok : (Assembly.Types c a).2 = none) :
    (Assembly.Types c a).1.length ≤ (a.toMetadataUtil.Tables .id_TypeDef).Rows.val ∧
    (∀ tc ∈ (Assembly.Types c a).1, ∃ i, ∃ tr : TypeDefRow,
      1 ≤ i ∧ i ≤ (a.toMetadataUtil.Tables .id_TypeDef).Rows.val ∧
      c.Data ⟨a.toMetadataUtil, i, .id_TypeDef⟩ = .ok tr ∧ tc = c.ToContentType tr ∧
      c.check tc tc.Name = none) ∧
    (∀ i, ∀ tr : TypeDefRow, 1 ≤ i → i ≤ (a.toMetadataUtil.Tables .id_TypeDef).Rows.val →
      c.Data ⟨a.toMetadataUtil, i, .id_TypeDef⟩ = .ok tr →
      c.check (c.ToContentType tr) (c.ToContentType tr).Name ≠ none →
      c.ToContentType tr ∉ (Assembly.Types c a).1) ∧
    (∀ i, ∀ tr : TypeDefRow, 1 ≤ i → i ≤ (a.toMetadataUtil.Tables .id_TypeDef).Rows.val →
      c.Data ⟨a.toMetadataUtil, i, .id_TypeDef⟩ = .ok tr →
      c.check (c.ToContentType tr) (c.ToContentType tr).Name = none →
      c.ToContentType tr ∈ (Assembly.Types c a).1) := by
  rcases Types_cases c a with ⟨_, h⟩ | ⟨i, e, _, _, _, _, h⟩
  · have hmem : ∀ tc, tc ∈ (Assembly.Types c a).1 ↔
        ∃ n, (1 ≤ n ∧ n ≤ (a.toMetadataUtil.Tables .id_TypeDef).Rows.val) ∧
          Types.keep c a.toMetadataUtil n = some tc := by
      intro tc
      rw [h]
      simp only [List.mem_filterMap, mem_rowNumbers]
    refine ⟨?_, ?_, ?_, ?_⟩
    · rw [h]
      calc ((rowNumbers (a.toMetadataUtil.Tables .id_TypeDef).Rows).filterMap
              (Types.keep c a.toMetadataUtil)).length
          ≤ (rowNumbers (a.toMetadataUtil.Tables .id_TypeDef).Rows).length :=
            List.length_filterMap_le _ _
        _ = (a.toMetadataUtil.Tables .id_TypeDef).Rows.val := rowNumbers_length _
    · intro tc htc
      obtain ⟨n, ⟨hn1, hn2⟩, hk⟩ := (hmem tc).mp htc
      obtain ⟨tr, h1, h2, h3⟩ := (keep_eq_some c a.toMetadataUtil n tc).mp hk
      exact ⟨n, tr, hn1, hn2, h1, h2, h3⟩
    · intro i tr _ _ _ hrej hin
      obtain ⟨n, _, hk⟩ := (hmem _).mp hin
      obtain ⟨tr1, _, h2, h3⟩ := (keep_eq_some c a.toMetadataUtil n _).mp hk
      exact hrej h3
    · intro i tr hi1 hi2 hd hacc
      exact (hmem _).mpr ⟨i, ⟨hi1, hi2⟩,
        (keep_eq_some c a.toMetadataUtil i _).mpr ⟨tr, hd, rfl, hacc⟩⟩
  · rw [h] at hok
    cases hok

/-- Over the rows `<Module>`, `N.A`, `N.Broken` the result of `Types` is the
conversion of rows 2 and 3. -/
theorem Types_entries_witness :
    (Assembly.Types (Demo.collaborators Demo.goodRows) (Demo.assembly Demo.goodRows)).2 = none ∧
    (Assembly.Types (Demo.collaborators Demo.goodRows) (Demo.assembly Demo.goodRows)).1 =
      [⟨⟨"N.A"⟩, ()⟩, ⟨⟨"N.Broken"⟩, ()⟩] ∧
    (Assembly.Types (Demo.collaborators Demo.goodRows)
      (Demo.assembly Demo.goodRows)).1.length ≤ 3 :=
  ⟨by decide, by decide,
    (Types_entries (Demo.collaborators Demo.goodRows) (Demo.assembly Demo.goodRows)
      (by decide)).1⟩

/-! ## C6. `Types`: when it fails -/

/-- C6: `Types` returns an error exactly when some row in `1..N` fails to
decode; it then returns the error of the first such row and no entries; when
every row decodes it returns a nil error whatever `check` says of the rows. -/
theorem Types_error_iff {M TypeDefRow TD P : Type} (c : Collaborators M TypeDefRow TD P)
    (a : Assembly M TD) :
    ((∃ e, (Assembly.Types c a).2 = some e) ↔
      ∃ i e, 1 ≤ i ∧ i ≤ (a.toMetadataUtil.Tables .id_TypeDef).Rows.val ∧
        c.Data ⟨a.toMetadataUtil, i, .id_TypeDef⟩ = .error e) ∧
    (∀ i e, 1 ≤ i → i ≤ (a.toMetadataUtil.Tables .id_TypeDef).Rows.val →
      c.Data ⟨a.toMetadataUtil, i, .id_TypeDef⟩ = .error e →
      (∀ j, 1 ≤ j → j < i →
        ∃ tr : TypeDefRow, c.Data ⟨a.toMetadataUtil, j, .id_TypeDef⟩ = .ok tr) →
      Assembly.Types c a = ([], some e)) ∧
    ((∀ i, 1 ≤ i → i ≤ (a.toMetadataUtil.Tables .id_TypeDef).Rows.val →
        ∃ tr : TypeDefRow, c.Data ⟨a.toMetadataUtil, i, .id_TypeDef⟩ = .ok tr) →
      (Assembly.Types c a).2 = none) := by
  refine ⟨⟨?_, ?_⟩, ?_, ?_⟩
  · rintro ⟨e, he⟩
    rcases Types_cases c a with ⟨_, h⟩ | ⟨i, e1, h1, h2, h3, _, _⟩
    · rw [h] at he; cases he
    · exact ⟨i, e1, h1, h2, h3⟩
  · rintro ⟨i, e, h1, h2, h3⟩
    rcases Types_cases c a with ⟨hall, _⟩ | ⟨_, e1, _, _, _, _, h⟩
    · obtain ⟨tr, htr⟩ := hall i h1 h2
      rw [h3] at htr; cases htr
    · exact ⟨e1, by rw [h]⟩
  · intro i e h1 h2 h3 hbefore
    rcases Types_cases c a with ⟨hall, _⟩ | ⟨k, e1, k1, k2, k3, kbefore, h⟩
    · obtain ⟨tr, htr⟩ := hall i h1 h2
      rw [h3] at htr; cases htr
    · have hki : k = i := by
        rcases Nat.lt_trichotomy k i with hlt | heq | hgt
        · obtain ⟨tr, htr⟩ := hbefore k k1 hlt
          rw [k3] at htr; cases htr
        · exact heq
        · obtain ⟨tr, htr⟩ := kbefore i h1 hgt
          rw [h3] at htr; cases htr
      subst hki
      rw [k3] at h3
      cases h3
      exact h
  · intro hall
    rw [Types_of_all_decoded c a hall]

/-- A table whose row 2 cannot be decoded yields that error and no entries; a
table whose rows all decode yields no error although `check` rejects row 1. -/
theorem Types_error_iff_witness :
    Assembly.Types (Demo.collaborators Demo.dupRows) (Demo.assembly Demo.dupRows) =
      ([], some ⟨"cannot decode row"⟩) ∧
    (Assembly.Types (Demo.collaborators Demo.goodRows) (Demo.assembly Demo.goodRows)).2 = none :=
  ⟨(Types_error_iff (Demo.collaborators Demo.dupRows) (Demo.assembly Demo.dupRows)).2.1 2
      ⟨"cannot decode row"⟩ (by decide) (by decide) rfl
      (by
        intro j h1 h2
        interval_cases j
        exact ⟨"N.T", rfl⟩),
    (Types_error_iff (Demo.collaborators Demo.goodRows) (Demo.assembly Demo.goodRows)).2.2
      (by
        intro i h1 h2
        have h3 : i ≤ 3 := h2
        interval_cases i
        · exact ⟨"<Module>", rfl⟩
        · exact ⟨"N.A", rfl⟩
        · exact ⟨"N.Broken", rfl⟩)⟩

/-! ## C7. `Complete` -/

/-- C7: `Complete(t)` returns no result and `FindType`'s error when
`FindType(t.Name)` errors; no result and the not-found error, which differs
from the invalid-argument error and carries the text of `t`, when `FindType`
returns a nil handle; no result and the conversion error when the handle's
`ToContentType` fails; otherwise the handle's converted content type as the
result and a nil error.  It returns a result exactly when it returns no error. -/
theorem Complete_cases {M TypeDefRow TD P : Type} (c : Collaborators M TypeDefRow TD P)
    (a : Assembly M TD) (t : ContentType P) :
    (∀ e, (Assembly.FindType c a t.Name).err = some e →
      (Assembly.Complete c a t).result = none ∧ (Assembly.Complete c a t).err = some e) ∧
    ((Assembly.FindType c a t.Name).err = none →
      (Assembly.FindType c a t.Name).handle = none →
      (Assembly.Complete c a t).result = none ∧
      (Assembly.Complete c a t).err = some (notFound c t)) ∧
    (notFound c t ≠ errors_New "Can only look up types with a full absolute name" ∧
      (notFound c t).msg = "Type not found in assembly: " ++ c.Sprint t) ∧
    (∀ td e, (Assembly.FindType c a t.Name).err = none →
      (Assembly.FindType c a t.Name).handle = some td →
      c.TypeDef_ToContentType td = .error e →
      (Assembly.Complete c a t).result = none ∧ (Assembly.Complete c a t).err = some e) ∧
    (∀ td ct, (Assembly.FindType c a t.Name).err = none →
      (Assembly.FindType c a t.Name).handle = some td →
      c.TypeDef_ToContentType td = .ok ct →
      (Assembly.Complete c a t).result = some (CompletionResult.mk ct) ∧
      (Assembly.Complete c a t).err = none) ∧
    ((Assembly.Complete c a t).result = none ↔ (Assembly.Complete c a t).err ≠ none) := by
  refine ⟨?_, ?_, ⟨notFound_ne_invalid c t, rfl⟩, ?_, ?_, ?_⟩
  · intro e he
    simp only [Assembly.Complete, he, and_self]
  · intro he hh
    simp only [Assembly.Complete, he, hh, and_self]
  · intro td e he hh hc
    simp only [Assembly.Complete, he, hh, hc, and_self]
  · intro td ct he hh hc
    simp only [Assembly.Complete, he, hh, hc, and_self]
  · unfold Assembly.Complete
    dsimp only
    split
    · simp
    · split
      · simp
      · split <;> simp

/-- The four outcomes of `Complete` on the demo assembly: a found and converted
type, a conversion error, a name that is not found, an empty name. -/
theorem Complete_cases_witness :
    (Assembly.Complete (Demo.collaborators Demo.goodRows) (Demo.assembly Demo.goodRows)
      ⟨⟨"N.A"⟩, ()⟩).result = some ⟨⟨⟨"N.A"⟩, ()⟩⟩ ∧
    (Assembly.Complete (Demo.collaborators Demo.goodRows) (Demo.assembly Demo.goodRows)
      ⟨⟨"N.A"⟩, ()⟩).err = none ∧
    (Assembly.Complete (Demo.collaborators Demo.goodRows) (Demo.assembly Demo.goodRows)
      ⟨⟨"N.Broken"⟩, ()⟩).err = some ⟨"cannot convert"⟩ ∧
    (Assembly.Complete (Demo.collaborators Demo.goodRows) (Demo.assembly Demo.goodRows)
      ⟨⟨"N.Z"⟩, ()⟩).err = some ⟨"Type not found in assembly: N.Z"⟩ ∧
    (Assembly.Complete (Demo.collaborators Demo.goodRows) (Demo.assembly Demo.goodRows)
      ⟨⟨""⟩, ()⟩).err = some ⟨"Can only look up types with a full absolute name"⟩ :=
  ⟨((Complete_cases (Demo.collaborators Demo.goodRows) (Demo.assembly Demo.goodRows)
      ⟨⟨"N.A"⟩, ()⟩).2.2.2.2.1 (2, "N.A") ⟨⟨"N.A"⟩, ()⟩ (by decide) (by decide) rfl).1,
    ((Complete_cases (Demo.collaborators Demo.goodRows) (Demo.assembly Demo.goodRows)
      ⟨⟨"N.A"⟩, ()⟩).2.2.2.2.1 (2, "N.A") ⟨⟨"N.A"⟩, ()⟩ (by decide) (by decide) rfl).2,
    ((Complete_cases (Demo.collaborators Demo.goodRows) (Demo.assembly Demo.goodRows)
      ⟨⟨"N.Broken"⟩, ()⟩).2.2.2.1 (3, "N.Broken") ⟨"cannot convert"⟩ (by decide) (by decide)
        rfl).2,
    ((Complete_cases (Demo.collaborators Demo.goodRows) (Demo.assembly Demo.goodRows)
      ⟨⟨"N.Z"⟩, ()⟩).2.1 (by decide) (by decide)).2,
    ((Complete_cases (Demo.collaborators Demo.goodRows) (Demo.assembly Demo.goodRows)
      ⟨⟨""⟩, ()⟩).1 ⟨"Can only look up types with a full absolute name"⟩ (by decide)).2⟩

/-! ## C8. `LoadAssembly`: the size of the runtime directory entry -/

/-- C8 as stated fails: the container of `Demo.loader` with the size of
directory slot 14 set to zero is loaded without error. -/
theorem LoadAssembly_zero_size_loads :
    ¬ ((∃ d, (Demo.loader.withCliSize 0).cliDirectory 0 = some d ∧ d.Size = 0) →
      (LoadAssembly (Nat × String) (Demo.loader.withCliSize 0) 0).1.isNone = true ∧
      (LoadAssembly (Nat × String) (Demo.loader.withCliSize 0) 0).2.isSome = true) := by
  intro h
  have h1 := (h ⟨⟨8272, 0⟩, rfl, rfl⟩).1
  revert h1
  decide

/-- C8 amended: `LoadAssembly` never reads the size of directory slot 14.
When `VirtualToFileOffset` does not depend on that size, the outcome on a
container whose slot 14 reports size `s` (zero included) is the outcome on the
same container with its original size; it returns an error exactly when a
seek, a read or the construction of the facade fails, and that error with no
Assembly; it returns an Assembly around the facade, with a nil cache and a nil
error, exactly when every step succeeds; and one of the two always happens. -/
theorem LoadAssembly_ignores_cli_size {R S H M : Type} (TD : Type) (l : Loader R S H M)
    (r : R) (s : Nat)
    (hv : ∀ (coff : coff_file_header S) (va : Nat),
      l.VirtualToFileOffset (coff.withCliSize s) va = l.VirtualToFileOffset coff va) :
    LoadAssembly TD (l.withCliSize s) r = LoadAssembly TD l r ∧
    (∀ e, (LoadAssembly TD (l.withCliSize s) r).2 = some e ↔ l.StepFails r e) ∧
    (∀ e, l.StepFails r e → LoadAssembly TD (l.withCliSize s) r = (none, some e)) ∧
    (∀ md, LoadAssembly TD (l.withCliSize s) r = (some ⟨md, none⟩, none) ↔ l.Loads r md) ∧
    ((∃ e, l.StepFails r e) ∨ (∃ md, l.Loads r md)) := by
  have hva : ∀ coff : coff_file_header S,
      ((coff.withCliSize s).OptionalHeader.RVAS 14).VirtualAddress =
        (coff.OptionalHeader.RVAS 14).VirtualAddress := by
    intro coff
    simp [coff_file_header.withCliSize]
  have heq : LoadAssembly TD (l.withCliSize s) r = LoadAssembly TD l r := by
    unfold LoadAssembly
    simp only [Loader.withCliSize]
    cases l.Seek r l.pe_signature_offset with
    | error e => rfl
    | ok r1 =>
      dsimp only
      cases l.Uint32 r1 with
      | error e => rfl
      | ok p =>
        obtain ⟨pe_offset, r2⟩ := p
        dsimp only
        cases l.Seek r2 (Int.ofNat pe_offset) with
        | error e => rfl
        | ok r3 =>
          dsimp only
          cases l.ReadCoff r3 with
          | error e => rfl
          | ok q =>
            obtain ⟨coff, r4⟩ := q
            dsimp only
            simp only [hv, hva]
  refine ⟨heq, ?_, ?_, ?_, stepFails_or_loads l r⟩
  · intro e
    rw [heq]
    exact LoadAssembly_error_iff TD l r e
  · intro e he
    rw [heq]
    exact LoadAssembly_of_stepFails TD l r e he
  · intro md
    rw [heq]
    exact LoadAssembly_loads_iff TD l r md

/-- The demo container with size zero in slot 14 loads as the original does:
every step succeeds and the result is an Assembly with a nil cache. -/
theorem LoadAssembly_ignores_cli_size_witness :
    LoadAssembly (Nat × String) (Demo.loader.withCliSize 0) 0 =
      LoadAssembly (Nat × String) Demo.loader 0 ∧
    LoadAssembly (Nat × String) (Demo.loader.withCliSize 0) 0 =
      (some ⟨Demo.metadata [some "MyNamespace.MyType"], none⟩, none) :=
  ⟨(LoadAssembly_ignores_cli_size (Nat × String) Demo.loader 0 0 (fun _ _ => rfl)).1,
    ((LoadAssembly_ignores_cli_size (Nat × String) Demo.loader 0 0
      (fun _ _ => rfl)).2.2.2.1 (Demo.metadata [some "MyNamespace.MyType"])).mpr
      ⟨60, 128, 64, 128, ⟨⟨fun k => if k = 14 then ⟨8272, 72⟩ else ⟨0, 0⟩⟩, ()⟩, 512,
        1104, ⟨⟨8448, 256⟩⟩, 1176, 1280, (), 1312, 1280,
        rfl, rfl, rfl, rfl, rfl, rfl, rfl, rfl, rfl, rfl⟩⟩

/-! ## C9. `FindType`: rows that fail to decode -/

/-- C9 as stated fails: over the rows `N.T`, undecodable, `N.T`, with the cache
unbuilt, row 2 fails to decode during the scan and `FindType` still returns a
nil error. -/
theorem FindType_row_error_not_returned :
    ¬ ((Demo.assembly Demo.dupRows).typelut = none →
      (FullyQualifiedName.mk "N.T").Absolute ≠ "" →
      ∀ i e, 1 ≤ i → i ≤ ((Demo.assembly Demo.dupRows).toMetadataUtil.Tables
          .id_TypeDef).Rows.val →
        (Demo.collaborators Demo.dupRows).TypeDefFromIndex
            ⟨(Demo.assembly Demo.dupRows).toMetadataUtil, i, .id_TypeDef⟩ = .error e →
          (Assembly.FindType (Demo.collaborators Demo.dupRows) (Demo.assembly Demo.dupRows)
            ⟨"N.T"⟩).err = some e) := by
  intro h
  have h1 := h rfl (by decide) 2 ⟨"cannot decode row"⟩ (by decide) (by decide) rfl
  revert h1
  decide

/-- C9 amended: row errors are not propagated by `FindType`.  With the cache
unbuilt and a non-empty name it hands every row `1..N` to `TypeDefFromIndex`,
in order and whatever rows fail, and returns a nil error; on every assembly
the only error `FindType` returns is the invalid-argument error for an empty
name. -/
theorem FindType_row_errors_skipped {M TypeDefRow TD P : Type}
    (c : Collaborators M TypeDefRow TD P) (a : Assembly M TD) (t : FullyQualifiedName)
    (hc : a.typelut = none) (ht : t.Absolute ≠ "") :
    (Assembly.FindType c a t).err = none ∧
    (Assembly.FindType c a t).decoded =
      (List.range (a.toMetadataUtil.Tables .id_TypeDef).Rows.val).map (fun i => i + 1) ∧
    (∀ (b : Assembly M TD) (u : FullyQualifiedName) (e : GoError),
      (Assembly.FindType c b u).err = some e →
        u.Absolute = "" ∧ e = errors_New "Can only look up types with a full absolute name") := by
  refine ⟨?_, ?_, ?_⟩
  · rw [FindType_fresh c a t ht hc]
  · rw [FindType_fresh c a t ht hc]
    exact rowNumbers_eq _
  · intro b u e he
    by_cases hu : u.Absolute = ""
    · rw [FindType_empty c b u hu] at he
      exact ⟨hu, (Option.some.inj he).symm⟩
    · cases hl : b.typelut with
      | none => rw [FindType_fresh c b u hu hl] at he; cases he
      | some lut => rw [FindType_cached c b u lut hu hl] at he; cases he

/-- On the rows `N.T`, undecodable, `N.T` the scan visits rows 1, 2, 3 and
`FindType` returns a nil error. -/
theorem FindType_row_errors_skipped_witness :
    (Assembly.FindType (Demo.collaborators Demo.dupRows) (Demo.assembly Demo.dupRows)
      ⟨"N.T"⟩).err = none ∧
    (Assembly.FindType (Demo.collaborators Demo.dupRows) (Demo.assembly Demo.dupRows)
      ⟨"N.T"⟩).decoded = [1, 2, 3] :=
  ⟨(FindType_row_errors_skipped (Demo.collaborators Demo.dupRows)
      (Demo.assembly Demo.dupRows) ⟨"N.T"⟩ rfl (by decide)).1,
    (FindType_row_errors_skipped (Demo.collaborators Demo.dupRows)
      (Demo.assembly Demo.dupRows) ⟨"N.T"⟩ rfl (by decide)).2.1.trans (by decide)⟩

/-! ## C10. `Name` -/

/-- C10: `Name` resolves row 1 of the Module table; when the resolution
succeeds it returns the name field of that row, when it fails it returns the
empty string.  Its only result is a string. -/
theorem Name_module_row {M TypeDefRow TD P : Type} (c : Collaborators M TypeDefRow TD P)
    (a : Assembly M TD) :
    (∀ mr : ModuleRow, c.Data ⟨a.toMetadataUtil, 1, .id_Module⟩ = .ok mr →
      Assembly.Name c a = mr.Name) ∧
    (∀ e, c.Data ⟨a.toMetadataUtil, 1, .id_Module⟩ = .error e → Assembly.Name c a = "") := by
  constructor
  · intro mr h
    simp only [Assembly.Name, h]
  · intro e h
    simp only [Assembly.Name, h]

/-- The demo module is named `demo.dll`. -/
theorem Name_module_row_witness :
    Assembly.Name (Demo.collaborators Demo.goodRows) (Demo.assembly Demo.goodRows) = "demo.dll" :=
  (Name_module_row (Demo.collaborators Demo.goodRows) (Demo.assembly Demo.goodRows)).1
    ⟨"demo.dll"⟩ rfl

end Net
